import Mathlib

set_option maxRecDepth 4000

/-
Verification of check_braces.py: a scanner that reads a source file line by
line, strips quoted substrings and trailing line comments with regular
expressions, tallies signed counts of brace and parenthesis characters, and
records every line after which a counter is negative.

Lines are modelled as lists of characters without their terminating newline
(the newline is neither a counted delimiter nor retained by the trailing
str.strip of the recorded text, so this is observationally equivalent).
-/

/-- The double-quote character, written by code point to keep literals simple. -/
def dquote : Char := Char.ofNat 34

/-- The single-quote character, written by code point. -/
def squote : Char := Char.ofNat 39

/-- A character matched by the regex character class of double or single quote. -/
def isQuote (c : Char) : Bool := c = dquote || c = squote

/--
Embedding of the substitution re.sub applied with pattern quote, lazy dot-star,
quote (check_braces.py line 12).  The engine scans left to right; at the first
quote character it removes the shortest span ending at the next quote character
of either kind, then resumes after the removed span.  The accumulator holds the
characters provisionally consumed since an opening quote (in reverse, opening
quote first): if the line ends before a closing quote appears, that span had no
match and is emitted unchanged; the consumed characters are never quotes, so no
later match can start inside them.
-/
def stripQuotesAux : Option (List Char) → List Char → List Char
  | none, [] => []
  | some buf, [] => buf.reverse
  | none, c :: rest =>
      if isQuote c then stripQuotesAux (some [c]) rest
      else c :: stripQuotesAux none rest
  | some buf, c :: rest =>
      if isQuote c then stripQuotesAux none rest
      else stripQuotesAux (some (c :: buf)) rest

/-- Quote stripping of a whole line: check_braces.py line 12. -/
def stripQuotes (l : List Char) : List Char := stripQuotesAux none l

/--
Embedding of the substitution removing a double slash and everything after it
to the end of the line (check_braces.py line 13).
-/
def stripComment : List Char → List Char
  | [] => []
  | '/' :: '/' :: _ => []
  | c :: rest => c :: stripComment rest

/-- The cleaned line: quotes stripped first, then the line comment (lines 12 and 13). -/
def cleanLine (l : List Char) : List Char := stripComment (stripQuotes l)

/-- One step of the character scan (check_braces.py lines 15 to 23). -/
def scanChar (bp : Int × Int) (c : Char) : Int × Int :=
  if c = '{' then (bp.1 + 1, bp.2)
  else if c = '}' then (bp.1 - 1, bp.2)
  else if c = '(' then (bp.1, bp.2 + 1)
  else if c = ')' then (bp.1, bp.2 - 1)
  else bp

/-- The character scan of a cleaned line, left to right (lines 15 to 23). -/
def scanLine : Int × Int → List Char → Int × Int
  | bp, [] => bp
  | bp, c :: rest => scanLine (scanChar bp c) rest

/-- Model of the str.strip applied to the raw line at record creation (line 27). -/
def pyStrip (s : List Char) : List Char :=
  ((s.dropWhile Char.isWhitespace).reverse.dropWhile Char.isWhitespace).reverse

/-- The mutable state of the scan: the two counters and the problem-record list
(check_braces.py lines 6 to 8). -/
structure ScanState where
  brace_count : Int
  paren_count : Int
  problem_lines : List (Nat × Int × Int × List Char)
deriving DecidableEq

/-- Processing of one line of the loop body (check_braces.py lines 10 to 27):
clean the line, update both counters over its characters, and append a problem
record when either counter is negative afterwards. -/
def processLine (st : ScanState) (i : Nat) (line : List Char) : ScanState :=
  let bp := scanLine (st.brace_count, st.paren_count) (cleanLine line)
  if bp.1 < 0 || bp.2 < 0 then
    { brace_count := bp.1, paren_count := bp.2,
      problem_lines := st.problem_lines ++ [(i, bp.1, bp.2, pyStrip line)] }
  else
    { brace_count := bp.1, paren_count := bp.2,
      problem_lines := st.problem_lines }

/-- The loop over all lines with 1-based numbering (enumerate at line 10). -/
def scanFrom : ScanState → Nat → List (List Char) → ScanState
  | st, _, [] => st
  | st, i, l :: ls => scanFrom (processLine st i l) (i + 1) ls

/-- Initial state: both counters zero, no problem records (lines 6 to 8). -/
def initState : ScanState := ⟨0, 0, []⟩

/-- The whole scan of a file given as its list of lines. -/
def runScan (lines : List (List Char)) : ScanState := scanFrom initState 1 lines

/-- The fixed header printed first (check_braces.py line 29). -/
def headerLine : String := "Lines where balance goes negative:"

/-- The final-count line (check_braces.py line 34); the print also emits a
preceding blank line, modelled in output below. -/
def finalLine (b p : Int) : String :=
  "Final counts: braces=" ++ toString b ++ ", parens=" ++ toString p

/-- The two printed lines of one problem record (check_braces.py lines 31 and 32):
line number with both counter snapshots, then the stripped text truncated to 80
characters, indented by two spaces. -/
def formatRecord (r : Nat × Int × Int × List Char) : List String :=
  ["Line " ++ toString r.1 ++ ": braces=" ++ toString r.2.1 ++ ", parens=" ++ toString r.2.2.1,
   "  " ++ (r.2.2.2.take 80).asString]

/-- The complete printed output as a list of lines (check_braces.py lines 29 to 34):
the header, the first ten problem records, a blank line, the final counts. -/
def output (lines : List (List Char)) : List String :=
  let st := runScan lines
  headerLine :: ((st.problem_lines.take 10).flatMap formatRecord)
    ++ ["", finalLine st.brace_count st.paren_count]

/-- Number of occurrences of a character in a list. -/
def countChar (q : Char) : List Char → Nat
  | [] => 0
  | c :: rest => (if c = q then 1 else 0) + countChar q rest

/-- Signed brace balance of a piece of text: opening braces minus closing braces. -/
def braceDelta (s : List Char) : Int := (countChar '{' s : Int) - (countChar '}' s : Int)

/-- Signed parenthesis balance of a piece of text. -/
def parenDelta (s : List Char) : Int := (countChar '(' s : Int) - (countChar ')' s : Int)

/-- Total signed brace balance over the cleaned text of every line of a file. -/
def totalBrace (lines : List (List Char)) : Int :=
  (lines.map (fun l => braceDelta (cleanLine l))).sum

/-- Total signed parenthesis balance over the cleaned text of every line. -/
def totalParen (lines : List (List Char)) : Int :=
  (lines.map (fun l => parenDelta (cleanLine l))).sum

/-- Search for the next quote character of the given kind, dropping everything
up to and including it; none when no such character follows. -/
def dropToQuoteKind (q : Char) : List Char → Option (List Char)
  | [] => none
  | c :: rest => if c = q then some rest else dropToQuoteKind q rest

/-- Fuel-indexed worker for stripQuotesSameKind; each step consumes at least
one character, so fuel at least the length of the list never runs out. -/
def sqskGo : Nat → List Char → List Char
  | _, [] => []
  | 0, l => l
  | fuel + 1, c :: rest =>
      if isQuote c then
        match dropToQuoteKind c rest with
        | some rest' => sqskGo fuel rest'
        | none => c :: sqskGo fuel rest
      else c :: sqskGo fuel rest

/-- Quote stripping as the claim words it: a removed span opens and closes with
the same quote character (non-greedy, left to right); a quote with no later
closing quote of the same kind is kept and scanning resumes after it.  This is
the specification-side reading to compare with stripQuotes, which pairs quotes
of either kind. -/
def stripQuotesSameKind (l : List Char) : List Char := sqskGo l.length l

/-- Concrete file with eleven problem lines, each a lone closing brace. -/
def elevenBad : List (List Char) := List.replicate 11 ['}']

/-- Concrete line with unbalanced braces inside a quoted string literal. -/
def quotedBraces : List Char := ['x', ' ', '=', ' ', dquote, '}', '}', '}', dquote]

/-- Concrete line with unbalanced closing parentheses after a line comment. -/
def commentParens : List Char :=
  ['f', 'o', 'o', '(', ')', ';', ' ', '/', '/', ' ', ')', ')', ')']

/-- Counting a character over a cons is the head contribution plus the tail count. -/
lemma countChar_cons (q c : Char) (s : List Char) :
    countChar q (c :: s) = (if c = q then 1 else 0) + countChar q s := rfl

/-- The brace balance of a cons splits into the head character's signed
contribution and the tail's balance. -/
lemma braceDelta_cons (c : Char) (s : List Char) :
    braceDelta (c :: s)
      = ((if c = '{' then (1 : Int) else 0) - (if c = '}' then 1 else 0)) + braceDelta s := by
  simp only [braceDelta, countChar_cons, Nat.cast_add]
  have h1 : (((if c = '{' then 1 else 0) : Nat) : Int) = (if c = '{' then (1 : Int) else 0) := by
    split_ifs <;> rfl
  have h2 : (((if c = '}' then 1 else 0) : Nat) : Int) = (if c = '}' then (1 : Int) else 0) := by
    split_ifs <;> rfl
  rw [h1, h2]; ring

/-- The parenthesis balance of a cons splits the same way. -/
lemma parenDelta_cons (c : Char) (s : List Char) :
    parenDelta (c :: s)
      = ((if c = '(' then (1 : Int) else 0) - (if c = ')' then 1 else 0)) + parenDelta s := by
  simp only [parenDelta, countChar_cons, Nat.cast_add]
  have h1 : (((if c = '(' then 1 else 0) : Nat) : Int) = (if c = '(' then (1 : Int) else 0) := by
    split_ifs <;> rfl
  have h2 : (((if c = ')' then 1 else 0) : Nat) : Int) = (if c = ')' then (1 : Int) else 0) := by
    split_ifs <;> rfl
  rw [h1, h2]; ring

/-- The character scan adds exactly the signed brace and parenthesis balances of
the scanned text to the incoming counter pair. -/
lemma scanLine_eq (s : List Char) : ∀ b p : Int,
    scanLine (b, p) s = (b + braceDelta s, p + parenDelta s) := by
  induction s with
  | nil =>
      intro b p
      simp [scanLine, braceDelta, parenDelta, countChar]
  | cons c rest ih =>
      intro b p
      show scanLine (scanChar (b, p) c) rest = _
      rw [braceDelta_cons, parenDelta_cons]
      by_cases h1 : c = '{'
      · subst h1
        rw [show scanChar (b, p) '{' = (b + 1, p) from rfl, ih]
        simp only [Prod.mk.injEq]
        constructor <;> · simp; try ring
      · by_cases h2 : c = '}'
        · subst h2
          rw [show scanChar (b, p) '}' = (b - 1, p) from rfl, ih]
          simp only [Prod.mk.injEq]
          constructor <;> · simp; try ring
        · by_cases h3 : c = '('
          · subst h3
            rw [show scanChar (b, p) '(' = (b, p + 1) from rfl, ih]
            simp only [Prod.mk.injEq]
            constructor <;> · simp; try ring
          · by_cases h4 : c = ')'
            · subst h4
              rw [show scanChar (b, p) ')' = (b, p - 1) from rfl, ih]
              simp only [Prod.mk.injEq]
              constructor <;> · simp; try ring
            · rw [show scanChar (b, p) c = (b, p) by simp [scanChar, h1, h2, h3, h4], ih]
              simp only [Prod.mk.injEq]
              constructor <;> · simp [h1, h2, h3, h4]

/-- Processing a line adds the cleaned line's brace balance to the brace counter. -/
lemma processLine_brace (st : ScanState) (i : Nat) (l : List Char) :
    (processLine st i l).brace_count = st.brace_count + braceDelta (cleanLine l) := by
  simp only [processLine, scanLine_eq]
  split_ifs <;> rfl

/-- Processing a line adds the cleaned line's parenthesis balance to the
parenthesis counter. -/
lemma processLine_paren (st : ScanState) (i : Nat) (l : List Char) :
    (processLine st i l).paren_count = st.paren_count + parenDelta (cleanLine l) := by
  simp only [processLine, scanLine_eq]
  split_ifs <;> rfl

/-- Processing a line either keeps the problem-record list unchanged or appends
a single record carrying the current line number. -/
lemma processLine_problem_cases (st : ScanState) (i : Nat) (l : List Char) :
    (processLine st i l).problem_lines = st.problem_lines ∨
    ∃ b p, (processLine st i l).problem_lines = st.problem_lines ++ [(i, b, p, pyStrip l)] := by
  simp only [processLine]
  split_ifs
  · right; exact ⟨_, _, rfl⟩
  · left; rfl

/-- The loop from any state adds the total cleaned balances of the remaining
lines to both counters. -/
lemma scanFrom_counts : ∀ (ls : List (List Char)) (st : ScanState) (i : Nat),
    (scanFrom st i ls).brace_count = st.brace_count + totalBrace ls ∧
    (scanFrom st i ls).paren_count = st.paren_count + totalParen ls := by
  intro ls
  induction ls with
  | nil => intro st i; simp [scanFrom, totalBrace, totalParen]
  | cons l ls ih =>
      intro st i
      have h := ih (processLine st i l) (i + 1)
      simp only [scanFrom]
      refine ⟨?_, ?_⟩
      · rw [h.1, processLine_brace]
        simp [totalBrace]; ring
      · rw [h.2, processLine_paren]
        simp [totalParen]; ring

/-- The loop preserves the invariant that recorded line numbers are strictly
increasing and bounded by the next line number to process. -/
lemma scanFrom_pairwise : ∀ (ls : List (List Char)) (st : ScanState) (i : Nat),
    (∀ r ∈ st.problem_lines, r.1 < i) →
    st.problem_lines.Pairwise (fun r s => r.1 < s.1) →
    (∀ r ∈ (scanFrom st i ls).problem_lines, r.1 < i + ls.length) ∧
    (scanFrom st i ls).problem_lines.Pairwise (fun r s => r.1 < s.1) := by
  intro ls
  induction ls with
  | nil =>
      intro st i hb hp
      exact ⟨fun r hr => by simpa [scanFrom] using Nat.lt_of_lt_of_le (hb r hr) (by omega), by
        simpa [scanFrom] using hp⟩
  | cons l ls ih =>
      intro st i hb hp
      have hb' : ∀ r ∈ (processLine st i l).problem_lines, r.1 < i + 1 := by
        rcases processLine_problem_cases st i l with h | ⟨b, p, h⟩
        · intro r hr; rw [h] at hr; exact Nat.lt_succ_of_lt (hb r hr)
        · intro r hr; rw [h] at hr
          rcases List.mem_append.1 hr with hr | hr
          · exact Nat.lt_succ_of_lt (hb r hr)
          · have : r = (i, b, p, pyStrip l) := by simpa using hr
            subst this; simp
      have hp' : (processLine st i l).problem_lines.Pairwise (fun r s => r.1 < s.1) := by
        rcases processLine_problem_cases st i l with h | ⟨b, p, h⟩
        · rwa [h]
        · rw [h]
          refine List.pairwise_append.2 ⟨hp, by simp, ?_⟩
          intro a ha b' hb'
          have : b' = (i, b, p, pyStrip l) := by simpa using hb'
          subst this
          exact hb a ha
      have h := ih (processLine st i l) (i + 1) hb' hp'
      simp only [scanFrom]
      refine ⟨?_, h.2⟩
      intro r hr
      have h2 := h.1 r hr
      simp only [List.length_cons]
      omega

/-- Outside a quoted span, quote-free text passes through the stripping untouched. -/
lemma stripQuotesAux_none_append (a : List Char) (l : List Char)
    (ha : ∀ c ∈ a, isQuote c = false) :
    stripQuotesAux none (a ++ l) = a ++ stripQuotesAux none l := by
  induction a with
  | nil => rfl
  | cons c a ih =>
      have hc : isQuote c = false := ha c (by simp)
      simp only [List.cons_append, stripQuotesAux, hc, Bool.false_eq_true, if_false]
      exact congrArg (c :: ·) (ih fun d hd => ha d (by simp [hd]))

/-- Inside a quoted span, quote-free text up to the next quote character of
either kind is dropped together with that closing quote, whatever was buffered. -/
lemma stripQuotesAux_close (m : List Char) (q2 : Char) (rest : List Char)
    (hm : ∀ c ∈ m, isQuote c = false) (hq2 : isQuote q2 = true) :
    ∀ buf, stripQuotesAux (some buf) (m ++ q2 :: rest) = stripQuotesAux none rest := by
  induction m with
  | nil =>
      intro buf
      simp only [List.nil_append, stripQuotesAux, hq2, if_true]
  | cons c m ih =>
      intro buf
      have hc : isQuote c = false := hm c (by simp)
      simp only [List.cons_append, stripQuotesAux, hc, Bool.false_eq_true, if_false]
      exact ih (fun d hd => hm d (by simp [hd])) (c :: buf)

/-- C1, counterexample: the quote-stripping of the code removes the text between
a double quote and a single quote — quote characters of different kinds — while
the claim's same-kind reading leaves that text in place, so the two disagree on
the three-character line double-quote, closing-brace, single-quote. -/
theorem c1_quote_kind_counterexample :
    stripQuotes [dquote, '}', squote] = [] ∧
    stripQuotesSameKind [dquote, '}', squote] = [dquote, '}', squote] ∧
    stripQuotes [dquote, '}', squote] ≠ stripQuotesSameKind [dquote, '}', squote] := by
  decide

/-- C1, amended: the quote-stripping step removes, left to right and
non-greedily, each span opening at a quote character and closing at the next
quote character of either kind, matched or not: for any quote-free
text a before the opening quote and quote-free text m between the two
quotes, stripping a ++ q1 :: m ++ q2 :: rest yields a followed by the
stripping of rest. -/
theorem c1_quote_strip_amended (a m rest : List Char) (q1 q2 : Char)
    (ha : ∀ c ∈ a, isQuote c = false) (hm : ∀ c ∈ m, isQuote c = false)
    (hq1 : isQuote q1 = true) (hq2 : isQuote q2 = true) :
    stripQuotes (a ++ q1 :: (m ++ q2 :: rest)) = a ++ stripQuotes rest := by
  unfold stripQuotes
  rw [stripQuotesAux_none_append a _ ha]
  congr 1
  show stripQuotesAux none (q1 :: (m ++ q2 :: rest)) = _
  simp only [stripQuotesAux, hq1, if_true]
  exact stripQuotesAux_close m q2 rest hm hq2 [q1]

/-- Witness for c1_quote_strip_amended on a concrete mixed-quote line. -/
theorem c1_quote_strip_amended_witness :
    ((∀ c ∈ ['x'], isQuote c = false) ∧ (∀ c ∈ ['}'], isQuote c = false) ∧
      isQuote dquote = true ∧ isQuote squote = true) ∧
    stripQuotes (['x'] ++ dquote :: (['}'] ++ squote :: ['y'])) = ['x'] ++ stripQuotes ['y'] :=
  ⟨⟨by decide, by decide, by decide, by decide⟩,
    c1_quote_strip_amended ['x'] ['}'] ['y'] dquote squote
      (by decide) (by decide) (by decide) (by decide)⟩


/-- C2: after the whole scan, the brace counter equals the total number of
opening braces minus closing braces over the cleaned text of every line, and
the parenthesis counter equals the total of opening minus closing parentheses
over the cleaned lines; no character of the raw lines outside the cleaned text
contributes. -/
theorem c2_final_counts (lines : List (List Char)) :
    (runScan lines).brace_count = totalBrace lines ∧
    (runScan lines).paren_count = totalParen lines := by
  have h := scanFrom_counts lines initState 1
  simpa [runScan, initState] using h

/-- C3: when more than ten problem records exist, exactly the first ten are
printed, the records beyond the tenth remain stored in the problem-record
list, and the printed final counts are the cleaned-line totals over every line
of the file. -/
theorem c3_first_ten (lines : List (List Char))
    (h : 10 < (runScan lines).problem_lines.length) :
    ((runScan lines).problem_lines.take 10).length = 10 ∧
    (runScan lines).problem_lines.drop 10 ≠ [] ∧
    output lines = headerLine :: (((runScan lines).problem_lines.take 10).flatMap formatRecord)
      ++ ["", finalLine (totalBrace lines) (totalParen lines)] := by
  refine ⟨?_, ?_, ?_⟩
  · rw [List.length_take]; omega
  · intro hd
    have hlen := congrArg List.length hd
    rw [List.length_drop] at hlen
    simp only [List.length_nil] at hlen
    omega
  · have hc := scanFrom_counts lines initState 1
    have hb : (runScan lines).brace_count = totalBrace lines := by
      simpa [runScan, initState] using hc.1
    have hp : (runScan lines).paren_count = totalParen lines := by
      simpa [runScan, initState] using hc.2
    simp [output, hb, hp]

/-- Witness for c3_first_ten at the eleven-line file of lone closing braces. -/
theorem c3_first_ten_witness :
    (10 < (runScan elevenBad).problem_lines.length) ∧
    (((runScan elevenBad).problem_lines.take 10).length = 10 ∧
     (runScan elevenBad).problem_lines.drop 10 ≠ [] ∧
     output elevenBad
       = headerLine :: (((runScan elevenBad).problem_lines.take 10).flatMap formatRecord)
         ++ ["", finalLine (totalBrace elevenBad) (totalParen elevenBad)]) :=
  ⟨by decide, c3_first_ten elevenBad (by decide)⟩

/-- C4: on the file whose only line is a lone closing brace, the problem-record
sequence is exactly one record at line 1 with brace snapshot -1 and parenthesis
snapshot 0. -/
theorem c4_single_closing_brace :
    (runScan [['}']]).problem_lines = [(1, -1, 0, ['}'])] := by decide

/-- C5: on the file whose only line assigns a quoted string of three closing
braces, the quoted content is stripped before counting, so the cleaned line
keeps only the text outside the quotes and no problem record is produced. -/
theorem c5_quoted_braces :
    cleanLine quotedBraces = ['x', ' ', '=', ' '] ∧
    (runScan [quotedBraces]).problem_lines = [] := by decide

/-- C6: on the file whose only line is balanced code followed by a line comment
holding unbalanced closing parentheses, only the code portion before the double
slash survives cleaning, both counters end at zero, and no problem record is
produced. -/
theorem c6_comment_parens :
    cleanLine commentParens = ['f', 'o', 'o', '(', ')', ';', ' '] ∧
    (runScan [commentParens]).problem_lines = [] ∧
    (runScan [commentParens]).brace_count = 0 ∧
    (runScan [commentParens]).paren_count = 0 := by decide

/-- C7: once the file contents are available as lines, the scan is a total
function of them: for every list of lines, however malformed as source text,
it completes and produces the full well-formed output, the header first and
the final-counts line last.  File-access failure is the only failure mode and
lies outside this pure model of the scan. -/
theorem c7_total_on_content (lines : List (List Char)) :
    ∃ recs : List String,
      output lines
        = headerLine :: recs
          ++ ["", finalLine (runScan lines).brace_count (runScan lines).paren_count] :=
  ⟨_, rfl⟩

/-- C8: the scanner is deterministic: two runs on the same file contents yield
the same final state — counters and problem records — and the same printed
output. -/
theorem c8_deterministic (l1 l2 : List (List Char)) (h : l1 = l2) :
    runScan l1 = runScan l2 ∧ output l1 = output l2 := by
  subst h; exact ⟨rfl, rfl⟩

/-- Witness for c8_deterministic on a concrete one-line file. -/
theorem c8_deterministic_witness :
    ([['}']] : List (List Char)) = [['}']] ∧
    (runScan [['}']] = runScan [['}']] ∧ output [['}']] = output [['}']]) :=
  ⟨rfl, c8_deterministic [['}']] [['}']] rfl⟩

/-- C9: on an empty file the problem-record sequence is empty and the output is
still the header, the blank line, and the final-counts line with both counts
zero. -/
theorem c9_empty_file :
    (runScan []).problem_lines = [] ∧
    output [] = [headerLine, "", "Final counts: braces=0, parens=0"] := by
  refine ⟨rfl, ?_⟩
  decide

/-- C10: the line numbers of the problem records are strictly increasing in the
order the records were appended: each line contributes at most one record, and
every later record carries a strictly greater line number. -/
theorem c10_line_numbers_increasing (lines : List (List Char)) :
    (runScan lines).problem_lines.Pairwise (fun r s => r.1 < s.1) := by
  have h := scanFrom_pairwise lines initState 1 (by simp [initState]) (by simp [initState])
  simpa [runScan] using h.2
